import Mathlib

/-!
# Verification of the pilot-2 preprocessing pipeline

Shallow embedding of the logic-bearing parts of the `pilot-2` repository
(Python), together with theorems settling the specification claims.

Embedded components and their sources:

* `src/preprocessing/Impedance/impedance_wrapper.py`
  (`ImpedanceWrapper.validate_impedance_config`,
   `ImpedanceWrapper.calculate_impedance`);
* the decay step of `Impedance_processor` (module `impedance_processor`
  is imported by the wrapper but is not part of the repository snapshot;
  its decay formulas and the cell-wise-maximum accumulator update are
  modelled from the spec);
* `src/preprocessing/protected_areas/utils.py` (`utils.run_shell_command`);
* `src/preprocessing/EnrichRaster/vector_preprocessor.py`
  (the SQL buffer-width expression of `buffer_features`, under SQLite
  semantics since the query runs through `ogr2ogr -dialect SQLite`);
* `src/preprocessing/OSM/osm_geojson_to_gpkg.py` (`fix_geometries_in_gpkg`);
* `src/preprocessing/OSM/osm_preprocessor.py` (`fix_invalid_geometries`).

Machine floats are modelled by `ℝ` (decay formulas) or `ℚ` (raster cell
values); Python dictionaries by association lists with distinct keys.
-/

namespace Pilot2

/-! ## Association-list helpers (Python `dict` access) -/

/-- First-match association-list lookup; with distinct keys this is the
Python `dict[k]` / `dict.get(k)` access used throughout the embedding. -/
def lookupKey {α : Type} (k : String) : List (String × α) → Option α
  | [] => none
  | kv :: rest => if kv.1 = k then some kv.2 else lookupKey k rest

theorem lookupKey_eq_none_iff {α : Type} (k : String) (l : List (String × α)) :
    lookupKey k l = none ↔ ∀ kv ∈ l, kv.1 ≠ k := by
  induction l with
  | nil => simp [lookupKey]
  | cons kv rest ih =>
    by_cases h : kv.1 = k <;> simp [lookupKey, h, ih]

theorem lookupKey_isSome_iff {α : Type} (k : String) (l : List (String × α)) :
    (lookupKey k l).isSome = true ↔ k ∈ l.map Prod.fst := by
  induction l with
  | nil => simp [lookupKey]
  | cons kv rest ih =>
    by_cases h : kv.1 = k
    · simp [lookupKey, h]
    · simp only [lookupKey, if_neg h, List.map_cons, List.mem_cons, ih]
      constructor
      · exact fun hm => Or.inr hm
      · rintro (he | hm)
        · exact absurd he.symm h
        · exact hm

theorem lookupKey_mem {α : Type} {k : String} {l : List (String × α)} {v : α}
    (h : lookupKey k l = some v) : (k, v) ∈ l := by
  induction l with
  | nil => simp [lookupKey] at h
  | cons kv rest ih =>
    by_cases hk : kv.1 = k
    · simp [lookupKey, hk] at h
      subst hk h
      exact List.mem_cons_self _ _
    · simp [lookupKey, hk] at h
      exact List.mem_cons_of_mem _ (ih h)

theorem lookupKey_of_mem {α : Type} {k : String} {l : List (String × α)} {v : α}
    (hnd : (l.map Prod.fst).Nodup) (h : (k, v) ∈ l) : lookupKey k l = some v := by
  induction l with
  | nil => simp at h
  | cons kv rest ih =>
    simp only [List.map_cons, List.nodup_cons] at hnd
    rcases List.mem_cons.mp h with h | h
    · subst h
      simp [lookupKey]
    · have hk : kv.1 ≠ k := by
        intro he
        exact hnd.1 (he ▸ (List.mem_map.mpr ⟨(k, v), h, rfl⟩))
      simp [lookupKey, hk, ih hnd.2 h]

/-! ## Impedance accumulation loop

Embedding of `ImpedanceWrapper.calculate_impedance`
(`src/preprocessing/Impedance/impedance_wrapper.py`, lines 120-155).
Raster cell values are `ℚ`; a raster over a cell grid `Cell` is `Cell → ℚ`.
The per-stressor computation performed by `Impedance_processor`
(`handle_no_data`, `compute_proximity`, `calculate_edge_effect`) is not in
the repository snapshot, so each stressor carries its edge-effect raster
abstractly, plus whether `gdal` managed to open its source raster
(`impedance_processor.ds is None` in the source). -/

/-- One stressor of the registry `impedance_stressors`: its YAML alias,
whether its raster opens (`ds` non-null), and — modelled from the spec,
since `Impedance_processor.calculate_edge_effect` is not under `src/` —
the edge-effect raster that the processor computes for it. -/
structure Stressor (Cell : Type) where
  name : String
  opens : Bool
  effect : Cell → ℚ

/-- Modelled from the spec (the update lives in
`Impedance_processor.calculate_edge_effect`, not under `src/`): "Update the
running accumulator with the cell-wise maximum of the prior accumulator and
this stressor's effect raster (first stressor initializes the
accumulator)." -/
def mergeEffect {Cell : Type} (acc : Option (Cell → ℚ)) (effect : Cell → ℚ) :
    Option (Cell → ℚ) :=
  match acc with
  | none => some effect
  | some a => some (fun c => max (a c) (effect c))

/-- The accumulator after folding `mergeEffect` over a list of effect
rasters, starting from the null accumulator (`max_result = None`). -/
def accumAll {Cell : Type} (effects : List (Cell → ℚ)) : Option (Cell → ℚ) :=
  effects.foldl mergeEffect none

/-- Loop state of `calculate_impedance`: the running accumulator
`max_result`, the aliases fully processed (nodata handling + proximity +
edge effect), the aliases skipped because their raster failed to open, and
the last `Impedance_processor` constructed (`impedance_processor` in the
source, initialized to `None` before the loop). -/
structure ImpState (Cell : Type) where
  max_result : Option (Cell → ℚ)
  processed : List String
  skipped : List String
  last_processor : Option (Stressor Cell)

/-- One iteration of the `for yaml_stressor, stressor_raster in
impedance_stressors.items()` loop: the processor is constructed before the
`ds is None` check, so `last_processor` is updated even for a stressor
whose raster fails to open; only an opening stressor runs the nodata /
proximity / edge-effect steps and updates the accumulator. -/
def calc_step {Cell : Type} (st : ImpState Cell) (s : Stressor Cell) : ImpState Cell :=
  if s.opens then
    { max_result := mergeEffect st.max_result s.effect
      processed := st.processed ++ [s.name]
      skipped := st.skipped
      last_processor := some s }
  else
    { max_result := st.max_result
      processed := st.processed
      skipped := st.skipped ++ [s.name]
      last_processor := some s }

/-- `ImpedanceWrapper.calculate_impedance`: fold the loop over the registry,
then call `impedance_processor.update_impedance_with_decay()`
unconditionally.  When no processor was ever constructed this is
`None.update_impedance_with_decay()`, a Python `AttributeError`, modelled
as `Except.error`; otherwise the decay step runs on the last constructed
processor, returned in `Except.ok`. -/
def calculate_impedance {Cell : Type} (stressors : List (Stressor Cell)) :
    ImpState Cell × Except String (Stressor Cell) :=
  let final := stressors.foldl calc_step ⟨none, [], [], none⟩
  match final.last_processor with
  | none => (final, Except.error "AttributeError")
  | some p => (final, Except.ok p)

theorem foldl_calc_step_max_result {Cell : Type} (ss : List (Stressor Cell))
    (st : ImpState Cell) :
    (ss.foldl calc_step st).max_result
      = ((ss.filter (fun s => s.opens)).map (fun s => s.effect)).foldl
          mergeEffect st.max_result := by
  induction ss generalizing st with
  | nil => rfl
  | cons s ss ih =>
    by_cases h : s.opens <;> simp [calc_step, h, ih, List.filter_cons]

theorem foldl_calc_step_processed {Cell : Type} (ss : List (Stressor Cell))
    (st : ImpState Cell) :
    (ss.foldl calc_step st).processed
      = st.processed ++ (ss.filter (fun s => s.opens)).map (fun s => s.name) := by
  induction ss generalizing st with
  | nil => simp
  | cons s ss ih =>
    by_cases h : s.opens <;> simp [calc_step, h, ih, List.filter_cons]

theorem foldl_calc_step_skipped {Cell : Type} (ss : List (Stressor Cell))
    (st : ImpState Cell) :
    (ss.foldl calc_step st).skipped
      = st.skipped ++ (ss.filter (fun s => !s.opens)).map (fun s => s.name) := by
  induction ss generalizing st with
  | nil => simp
  | cons s ss ih =>
    by_cases h : s.opens <;> simp [calc_step, h, ih, List.filter_cons]

theorem foldl_calc_step_last {Cell : Type} (ss : List (Stressor Cell))
    (s : Stressor Cell) (st : ImpState Cell) :
    ((ss ++ [s]).foldl calc_step st).last_processor = some s := by
  rw [List.foldl_append]
  by_cases h : s.opens <;> simp [calc_step, h]

theorem foldl_mergeEffect_some {Cell : Type} (es : List (Cell → ℚ)) (a : Cell → ℚ) :
    es.foldl mergeEffect (some a)
      = some (fun c => (es.map (fun g => g c)).foldl max (a c)) := by
  induction es generalizing a with
  | nil => rfl
  | cons e es ih => simp [mergeEffect, ih]

theorem foldl_max_mem (l : List ℚ) (x : ℚ) : l.foldl max x ∈ x :: l := by
  induction l generalizing x with
  | nil => simp
  | cons y l ih =>
    rcases List.mem_cons.mp (ih (max x y)) with h | h
    · rcases max_choice x y with hm | hm <;> rw [List.foldl_cons, h, hm] <;> simp
    · simp [List.foldl_cons, h]

theorem le_foldl_max (l : List ℚ) (x : ℚ) : x ≤ l.foldl max x := by
  induction l generalizing x with
  | nil => simp
  | cons y l ih => exact le_trans (le_max_left x y) (ih (max x y))

theorem mem_le_foldl_max {l : List ℚ} {y : ℚ} (x : ℚ) (h : y ∈ l) :
    y ≤ l.foldl max x := by
  induction l generalizing x with
  | nil => simp at h
  | cons z l ih =>
    rcases List.mem_cons.mp h with h | h
    · subst h
      exact le_trans (le_max_right x y) (le_foldl_max l (max x y))
    · exact ih (max x z) h

theorem calculate_impedance_fst {Cell : Type} (ss : List (Stressor Cell)) :
    (calculate_impedance ss).1 = ss.foldl calc_step ⟨none, [], [], none⟩ := by
  unfold calculate_impedance
  cases h : (ss.foldl calc_step ⟨none, [], [], none⟩).last_processor <;> simp [h]

/-- Concrete stressors over a one-cell grid, used by witnesses. -/
def roadsDemo : Stressor (Fin 1) := ⟨"roads_primary", true, fun _ => 2⟩

/-- A second concrete stressor whose raster opens. -/
def railDemo : Stressor (Fin 1) := ⟨"rail", true, fun _ => 3⟩

/-- A concrete stressor whose raster fails to open. -/
def badDemo : Stressor (Fin 1) := ⟨"rail_missing", false, fun _ => 3⟩

/-- A concrete mid-loop state, used by witnesses. -/
def stDemo : ImpState (Fin 1) :=
  ⟨some (fun _ => 5), ["roads_primary"], [], some roadsDemo⟩

/-- Claim C2: in `ImpedanceWrapper.calculate_impedance` the accumulator is
updated per stressor with the cell-wise maximum of the prior accumulator
and that stressor's effect raster, the first processed stressor
initializing it; merging the same effect raster twice equals merging it
once; after all stressors the accumulator at every cell equals the maximum
over all processed stressors' effect values at that cell (witnessed here by
membership plus being an upper bound); and for a two-stressor registry the
final accumulator is the cell-wise maximum of the two effect rasters. -/
theorem calculate_impedance_cellwise_max {Cell : Type} (acc : Option (Cell → ℚ))
    (eff e : Cell → ℚ) (es : List (Cell → ℚ)) (c : Cell)
    (s1 s2 : Stressor Cell) (h1 : s1.opens = true) (h2 : s2.opens = true) :
    mergeEffect (mergeEffect acc eff) eff = mergeEffect acc eff ∧
    (∃ f, accumAll (e :: es) = some f ∧ f c ∈ (e :: es).map (fun g => g c) ∧
      ∀ g ∈ e :: es, g c ≤ f c) ∧
    (calculate_impedance [s1, s2]).1.max_result
      = some (fun x => max (s1.effect x) (s2.effect x)) := by
  refine ⟨?_, ?_, ?_⟩
  · cases acc with
    | none =>
      simp only [mergeEffect]
      exact congrArg some (funext fun x => max_self (eff x))
    | some a =>
      simp only [mergeEffect]
      exact congrArg some (funext fun x => by rw [max_assoc, max_self])
  · refine ⟨fun x => (es.map (fun g => g x)).foldl max (e x), ?_, ?_, ?_⟩
    · show (e :: es).foldl mergeEffect none = _
      rw [List.foldl_cons]
      show es.foldl mergeEffect (some e) = _
      exact foldl_mergeEffect_some es e
    · simpa using foldl_max_mem (es.map (fun g => g c)) (e c)
    · intro g hg
      rcases List.mem_cons.mp hg with hg | hg
      · subst hg
        exact le_foldl_max _ _
      · exact mem_le_foldl_max _ (List.mem_map.mpr ⟨g, hg, rfl⟩)
  · rw [calculate_impedance_fst]
    simp [calc_step, h1, h2, mergeEffect]

/-- Witness for C2 at a concrete two-stressor registry over a one-cell
grid. -/
theorem calculate_impedance_cellwise_max_witness :
    (calculate_impedance [roadsDemo, railDemo]).1.max_result
      = some (fun x => max (roadsDemo.effect x) (railDemo.effect x)) :=
  (calculate_impedance_cellwise_max none (fun _ => 0) (fun _ => 1) [] 0
    roadsDemo railDemo rfl rfl).2.2

/-- Claim C5: a stressor whose raster fails to open is skipped — the
accumulator and the processed list are unchanged by it and its alias is
logged as skipped — and the loop continues: the final accumulator folds
exactly the effect rasters of the stressors that opened, the processed
aliases are exactly the opening ones, and the skipped aliases exactly the
non-opening ones, so no raster-open failure aborts the run. -/
theorem calculate_impedance_skips_failed {Cell : Type}
    (stressors : List (Stressor Cell)) (st : ImpState Cell) (s : Stressor Cell)
    (hfail : s.opens = false) :
    (calc_step st s).max_result = st.max_result ∧
    (calc_step st s).processed = st.processed ∧
    (calc_step st s).skipped = st.skipped ++ [s.name] ∧
    (calculate_impedance stressors).1.max_result
      = accumAll ((stressors.filter (fun t => t.opens)).map (fun t => t.effect)) ∧
    (calculate_impedance stressors).1.processed
      = (stressors.filter (fun t => t.opens)).map (fun t => t.name) ∧
    (calculate_impedance stressors).1.skipped
      = (stressors.filter (fun t => !t.opens)).map (fun t => t.name) := by
  refine ⟨by simp [calc_step, hfail], by simp [calc_step, hfail],
    by simp [calc_step, hfail], ?_, ?_, ?_⟩
  · rw [calculate_impedance_fst, foldl_calc_step_max_result]
    rfl
  · rw [calculate_impedance_fst, foldl_calc_step_processed]
    rfl
  · rw [calculate_impedance_fst, foldl_calc_step_skipped]
    rfl

/-- Witness for C5: skipping a concrete failing stressor leaves the
accumulator unchanged. -/
theorem calculate_impedance_skips_failed_witness :
    (calc_step stDemo badDemo).max_result = stDemo.max_result :=
  (calculate_impedance_skips_failed [] stDemo badDemo rfl).1

/-- Claim C9: `calculate_impedance` always invokes the final decay step on
the processor constructed for the last registry entry, even when that
entry's raster failed to open; for an empty registry the loop body never
runs, `impedance_processor` remains `None`, and calling
`update_impedance_with_decay` on it raises an `AttributeError`. -/
theorem calculate_impedance_final_decay_unguarded {Cell : Type}
    (ss : List (Stressor Cell)) (s : Stressor Cell) :
    calculate_impedance ([] : List (Stressor Cell))
      = (⟨none, [], [], none⟩, Except.error "AttributeError") ∧
    (calculate_impedance (ss ++ [s])).2 = Except.ok s := by
  constructor
  · rfl
  · simp only [calculate_impedance]
    rw [foldl_calc_step_last]

/-! ## Shell-script runner

Embedding of `utils.run_shell_command`
(`src/preprocessing/protected_areas/utils.py`, lines 24-49).  Each
invocation of the script is an external event; `env i` gives the exit code
and whether stderr contains the text that triggers the `dos2unix`
conversion and retry (`b"syntax error" in stderr` in the source).  The
recursion is indexed by fuel: `none` means the function has not reached any
outcome within that many calls, so divergence is `= none` for every
fuel. -/

/-- Outcome of one invocation of the shell script: its exit code and
whether its stderr contains the retry-triggering text. -/
structure RunResult where
  code : Int
  synErr : Bool

/-- Terminating outcomes of `run_shell_command`: a normal return (exit code
zero) or a raised `subprocess.CalledProcessError`. -/
inductive ShellOutcome where
  | ok
  | calledProcessError (code : Int)
deriving DecidableEq, Repr

/-- `utils.run_shell_command`, fuel-indexed.  On a non-zero exit whose
stderr has the retry text it converts line endings and calls itself again
(the next invocation of `env`); on any other non-zero exit it raises
`CalledProcessError`; on exit code zero it returns. -/
def run_shell_command (env : Nat → RunResult) : Nat → Nat → Option ShellOutcome
  | _, 0 => none
  | attempt, fuel + 1 =>
    if (env attempt).code ≠ 0 then
      if (env attempt).synErr then run_shell_command env (attempt + 1) fuel
      else some (ShellOutcome.calledProcessError (env attempt).code)
    else some ShellOutcome.ok

/-- Claim C10: `run_shell_command` retries without any bound — if every
invocation exits non-zero with the retry text in stderr, no amount of fuel
reaches an outcome (the recursion never terminates); it raises
`CalledProcessError` exactly on a non-zero exit whose stderr lacks that
text, and returns normally on exit code zero. -/
theorem run_shell_command_semantics (env env2 env3 : Nat → RunResult)
    (a fuel : Nat)
    (h1 : ∀ i, (env i).code ≠ 0 ∧ (env i).synErr = true)
    (h2 : (env2 a).code = 0)
    (h3 : (env3 a).code ≠ 0) (h3b : (env3 a).synErr = false) :
    run_shell_command env a fuel = none ∧
    run_shell_command env2 a (fuel + 1) = some ShellOutcome.ok ∧
    run_shell_command env3 a (fuel + 1)
      = some (ShellOutcome.calledProcessError (env3 a).code) := by
  have key : ∀ f b, run_shell_command env b f = none := by
    intro f
    induction f with
    | zero => intro b; rfl
    | succ n ih =>
      intro b
      simp only [run_shell_command, if_pos (h1 b).1, (h1 b).2, if_pos]
      exact ih (b + 1)
  refine ⟨key fuel a, ?_, ?_⟩
  · simp [run_shell_command, h2]
  · simp [run_shell_command, h3, h3b]

/-- A script that always exits 2 with the retry text in stderr. -/
def envLoops : Nat → RunResult := fun _ => ⟨2, true⟩

/-- A script that exits 0. -/
def envOk : Nat → RunResult := fun _ => ⟨0, false⟩

/-- A script that exits 5 without the retry text. -/
def envRaises : Nat → RunResult := fun _ => ⟨5, false⟩

/-- Witness for C10 at concrete environments: the always-failing script
reaches no outcome in 7 calls, the clean script returns, and the
other failure raises. -/
theorem run_shell_command_semantics_witness :
    run_shell_command envLoops 0 7 = none ∧
    run_shell_command envOk 0 8 = some ShellOutcome.ok ∧
    run_shell_command envRaises 0 8
      = some (ShellOutcome.calledProcessError (envRaises 0).code) :=
  run_shell_command_semantics envLoops envOk envRaises 0 7
    (fun _ => ⟨by norm_num [envLoops], rfl⟩) rfl (by norm_num [envRaises]) rfl

/-! ## Decay step -/

/-- Modelled from the spec (the decay step lives in
`Impedance_processor`, whose module is imported by the wrapper but is not
under `src/`): exponential decline,
`effect = impedance_max * exp(-distance / lambda_decay)`. -/
noncomputable def exp_decline_effect (impedance_max lambda_decay distance : ℝ) : ℝ :=
  impedance_max * Real.exp (-distance / lambda_decay)

/-- Modelled from the spec (same missing module): proportional decline,
`effect = impedance_max * k_value / (k_value + distance)`. -/
noncomputable def prop_decline_effect (impedance_max k_value distance : ℝ) : ℝ :=
  impedance_max * k_value / (k_value + distance)

/-- Claim C1: for every `distance ≥ 0` and positive `lambda_decay`,
`k_value` and `impedance_max`, both decay outputs lie in
`(0, impedance_max]`, equal `impedance_max` at `distance = 0`, and are
strictly decreasing in distance. -/
theorem decay_step_properties (imax lam k d d1 d2 : ℝ)
    (himax : 0 < imax) (hlam : 0 < lam) (hk : 0 < k) (hd : 0 ≤ d)
    (hd1 : 0 ≤ d1) (hlt : d1 < d2) :
    (0 < exp_decline_effect imax lam d ∧ exp_decline_effect imax lam d ≤ imax) ∧
    exp_decline_effect imax lam 0 = imax ∧
    exp_decline_effect imax lam d2 < exp_decline_effect imax lam d1 ∧
    (0 < prop_decline_effect imax k d ∧ prop_decline_effect imax k d ≤ imax) ∧
    prop_decline_effect imax k 0 = imax ∧
    prop_decline_effect imax k d2 < prop_decline_effect imax k d1 := by
  unfold exp_decline_effect prop_decline_effect
  have hkd : 0 < k + d := by linarith
  have hkd1 : 0 < k + d1 := by linarith
  refine ⟨⟨?_, ?_⟩, ?_, ?_, ⟨?_, ?_⟩, ?_, ?_⟩
  · exact mul_pos himax (Real.exp_pos _)
  · have h1 : Real.exp (-d / lam) ≤ 1 := by
      rw [Real.exp_le_one_iff]
      have : 0 ≤ d / lam := div_nonneg hd hlam.le
      rw [neg_div]
      linarith
    calc imax * Real.exp (-d / lam) ≤ imax * 1 :=
          mul_le_mul_of_nonneg_left h1 himax.le
      _ = imax := mul_one imax
  · rw [neg_zero, zero_div, Real.exp_zero, mul_one]
  · have hx : -d2 / lam < -d1 / lam := by
      rw [div_lt_div_iff_of_pos_right hlam]
      linarith
    exact mul_lt_mul_of_pos_left (Real.exp_lt_exp.mpr hx) himax
  · exact div_pos (mul_pos himax hk) hkd
  · rw [div_le_iff₀ hkd]
    have : imax * k ≤ imax * (k + d) := by nlinarith
    linarith [this]
  · rw [add_zero, mul_div_assoc, div_self hk.ne', mul_one]
  · exact div_lt_div_of_pos_left (mul_pos himax hk) hkd1 (by linarith)

/-- Witness for C1 at `impedance_max = 1`, `lambda_decay = 1`,
`k_value = 1`, `distance = 1`, comparing distances `0 < 1`. -/
theorem decay_step_properties_witness :
    (0 < exp_decline_effect 1 1 1 ∧ exp_decline_effect 1 1 1 ≤ 1) ∧
    exp_decline_effect 1 1 0 = 1 ∧
    exp_decline_effect 1 1 1 < exp_decline_effect 1 1 0 ∧
    (0 < prop_decline_effect 1 1 1 ∧ prop_decline_effect 1 1 1 ≤ 1) ∧
    prop_decline_effect 1 1 0 = 1 ∧
    prop_decline_effect 1 1 1 < prop_decline_effect 1 1 0 :=
  decay_step_properties 1 1 1 1 0 1 (by norm_num) (by norm_num) (by norm_num)
    (by norm_num) (by norm_num) (by norm_num)

/-! ## Impedance configuration validation

Embedding of `ImpedanceWrapper.validate_impedance_config`
(`src/preprocessing/Impedance/impedance_wrapper.py`, lines 59-84).
YAML values are `PyVal`; a parameter set (`stressor_params`) and the
template (`self.params_placeholder`) are association lists with distinct
keys, mirroring Python dictionaries.  `find_stressor_params` (module
`utils`, not under `src/`) is modelled from the spec: it returns the
parameter set stored in the configuration for a stressor alias, so the
registry is embedded directly as a list of alias/parameter-set pairs. -/

/-- A YAML-loaded Python runtime value.  The inner mappings of the
placeholder (`exp_decline`, `prop_decline`) hold numeric parameters, so
nested dictionary payloads are `String × ℚ` pairs; only the outer runtime
type of a value matters to the validator. -/
inductive PyVal where
  | pynone
  | pystr (s : String)
  | pyint (n : Int)
  | pyfloat (q : ℚ)
  | pybool (b : Bool)
  | pydict (entries : List (String × ℚ))
deriving DecidableEq, Repr

/-- Python runtime types as produced by `type(...)` on a `PyVal`. -/
inductive PyType where
  | tNone
  | tStr
  | tInt
  | tFloat
  | tBool
  | tDict
deriving DecidableEq, Repr

/-- `type(v)` for the embedded values. -/
def pyType : PyVal → PyType
  | .pynone => .tNone
  | .pystr _ => .tStr
  | .pyint _ => .tInt
  | .pyfloat _ => .tFloat
  | .pybool _ => .tBool
  | .pydict _ => .tDict

/-- Python `isinstance(v, t)`: runtime type equality, except that `bool` is
a subclass of `int`, so a boolean value passes an `int` check. -/
def isinstanceB (v : PyVal) (t : PyType) : Bool :=
  match t with
  | .tInt => pyType v == .tInt || pyType v == .tBool
  | t => pyType v == t

theorem isinstanceB_refl (v : PyVal) : isinstanceB v (pyType v) = true := by
  cases v <;> rfl

/-- A parameter set or the placeholder template: a Python dictionary from
parameter name to value. -/
abbrev Params : Type := List (String × PyVal)

/-- One emitted `warnings.warn` call of `validate_impedance_config`. -/
inductive Warning where
  | unexpectedKey (k : String)
  | typeMismatch (k : String)
  | missingKey (k : String)
deriving DecidableEq, Repr

/-- The warnings `validate_impedance_config` emits while checking one
stressor's parameter set against the placeholder: first, per present key,
an unexpected-key or type-mismatch warning; then, only when the parameter
count differs from the placeholder's (`len(stressor_params) !=
len(self.params_placeholder)` in the source), a missing-key warning per
absent template key. -/
def stressorWarnings (ph ps : Params) : List Warning :=
  (ps.filterMap (fun kv =>
    match lookupKey kv.1 ph with
    | none => some (Warning.unexpectedKey kv.1)
    | some tv =>
      if isinstanceB kv.2 (pyType tv) then none
      else some (Warning.typeMismatch kv.1))) ++
  (if ps.length = ph.length then []
   else ph.filterMap (fun kv =>
     if (lookupKey kv.1 ps).isNone then some (Warning.missingKey kv.1)
     else none))

/-- `ImpedanceWrapper.validate_impedance_config`: check each stressor alias
in registry order; the `raise ValueError` sits inside the per-stressor
loop (`if error_flag: raise ...`), so the run stops at the end of the
first alias whose checks set `error_flag`.  Returns the emitted warnings
and whether a `ValueError` was raised. -/
def validate_impedance_config (ph : Params) :
    List (String × Params) → List Warning × Bool
  | [] => ([], false)
  | sp :: rest =>
    let ws := stressorWarnings ph sp.2
    if ws.isEmpty then validate_impedance_config ph rest
    else (ws, true)

/-- A violation of the placeholder contract for one parameter set: an
unexpected key, a type mismatch, or a missing template key. -/
def HasViolation (ph ps : Params) : Prop :=
  (∃ kv ∈ ps, lookupKey kv.1 ph = none ∨
      ∃ tv, lookupKey kv.1 ph = some tv ∧ isinstanceB kv.2 (pyType tv) = false) ∨
  ∃ kv ∈ ph, lookupKey kv.1 ps = none

/-- Number of violations in one parameter set (used to compare against the
number of emitted warnings). -/
def violationCount (ph ps : Params) : Nat :=
  ps.countP (fun kv =>
    match lookupKey kv.1 ph with
    | none => true
    | some tv => !isinstanceB kv.2 (pyType tv)) +
  ph.countP (fun kv => (lookupKey kv.1 ps).isNone)

/-- Total number of violations across every stressor alias of a registry. -/
def totalViolations (ph : Params) (stressors : List (String × Params)) : Nat :=
  (stressors.map (fun sp => violationCount ph sp.2)).sum

/-- A parameter set equal to the template with one key removed. -/
def removeKey (k : String) (l : Params) : Params :=
  l.filter (fun kv => decide (kv.1 ≠ k))

theorem unexpectedKey_mem_stressorWarnings {ph p : Params} {kv : String × PyVal}
    (h : kv ∈ p) (hn : lookupKey kv.1 ph = none) :
    Warning.unexpectedKey kv.1 ∈ stressorWarnings ph p := by
  unfold stressorWarnings
  exact List.mem_append_left _ (List.mem_filterMap.mpr ⟨kv, h, by simp [hn]⟩)

theorem typeMismatch_mem_stressorWarnings {ph p : Params} {kv : String × PyVal}
    {tv : PyVal} (h : kv ∈ p) (hs : lookupKey kv.1 ph = some tv)
    (hbad : isinstanceB kv.2 (pyType tv) = false) :
    Warning.typeMismatch kv.1 ∈ stressorWarnings ph p := by
  unfold stressorWarnings
  exact List.mem_append_left _ (List.mem_filterMap.mpr ⟨kv, h, by simp [hs, hbad]⟩)

theorem missingKey_mem_stressorWarnings {ph p : Params} {kv : String × PyVal}
    (hlen : p.length ≠ ph.length) (h : kv ∈ ph) (hn : lookupKey kv.1 p = none) :
    Warning.missingKey kv.1 ∈ stressorWarnings ph p := by
  unfold stressorWarnings
  apply List.mem_append_right
  rw [if_neg hlen]
  exact List.mem_filterMap.mpr ⟨kv, h, by simp [hn]⟩

theorem stressorWarnings_eq_nil_iff (ph ps : Params)
    (hph : (ph.map Prod.fst).Nodup) (hps : (ps.map Prod.fst).Nodup) :
    stressorWarnings ph ps = [] ↔ ¬ HasViolation ph ps := by
  constructor
  · intro h hv
    obtain ⟨hA, hB⟩ := List.append_eq_nil.mp h
    rw [List.filterMap_eq_nil_iff] at hA
    rcases hv with ⟨kv, hmem, hcase⟩ | ⟨kv, hmem, hnone⟩
    · have hfkv := hA kv hmem
      rcases hcase with hnone | ⟨tv, hsome, hbad⟩
      · rw [hnone] at hfkv
        simp at hfkv
      · rw [hsome] at hfkv
        simp [hbad] at hfkv
    · by_cases hlen : ps.length = ph.length
      · have hsub : (ps.map Prod.fst).toFinset ⊆ (ph.map Prod.fst).toFinset := by
          intro x hx
          rw [List.mem_toFinset] at hx ⊢
          obtain ⟨kv', hkv', hx⟩ := List.mem_map.mp hx
          subst hx
          have hfkv := hA kv' hkv'
          cases hlk : lookupKey kv'.1 ph with
          | none =>
            rw [hlk] at hfkv
            simp at hfkv
          | some tv =>
            have : (lookupKey kv'.1 ph).isSome = true := by rw [hlk]; rfl
            exact (lookupKey_isSome_iff _ _).mp this
        have hcardle : (ph.map Prod.fst).toFinset.card
            ≤ (ps.map Prod.fst).toFinset.card := by
          rw [List.toFinset_card_of_nodup hph, List.toFinset_card_of_nodup hps]
          simp [hlen]
        have heq := Finset.eq_of_subset_of_card_le hsub hcardle
        have hkmem : kv.1 ∈ ps.map Prod.fst := by
          have : kv.1 ∈ (ph.map Prod.fst).toFinset :=
            List.mem_toFinset.mpr (List.mem_map.mpr ⟨kv, hmem, rfl⟩)
          rw [← heq] at this
          exact List.mem_toFinset.mp this
        have := (lookupKey_isSome_iff kv.1 ps).mpr hkmem
        rw [hnone] at this
        simp at this
      · rw [if_neg hlen, List.filterMap_eq_nil_iff] at hB
        have hfkv := hB kv hmem
        rw [hnone] at hfkv
        simp at hfkv
  · intro hnv
    unfold stressorWarnings
    rw [List.append_eq_nil]
    constructor
    · rw [List.filterMap_eq_nil_iff]
      intro kv hmem
      cases hlk : lookupKey kv.1 ph with
      | none => exact absurd (Or.inl ⟨kv, hmem, Or.inl hlk⟩) hnv
      | some tv =>
        by_cases hins : isinstanceB kv.2 (pyType tv) = true
        · simp [hins]
        · exact absurd
            (Or.inl ⟨kv, hmem, Or.inr ⟨tv, hlk, Bool.eq_false_iff.mpr hins⟩⟩) hnv
    · by_cases hlen : ps.length = ph.length
      · rw [if_pos hlen]
      · rw [if_neg hlen, List.filterMap_eq_nil_iff]
        intro kv hmem
        cases hlk : lookupKey kv.1 ps with
        | none => exact absurd (Or.inr ⟨kv, hmem, hlk⟩) hnv
        | some tv => simp [hlk]

theorem filterMap_key_single {β : Type} (F : String → β) (ph : Params) (k : String)
    (hph : (ph.map Prod.fst).Nodup) (hk : k ∈ ph.map Prod.fst) :
    ph.filterMap (fun kv => if kv.1 = k then some (F kv.1) else none) = [F k] := by
  induction ph with
  | nil => simp at hk
  | cons kv ph ih =>
    simp only [List.map_cons, List.nodup_cons] at hph
    by_cases h : kv.1 = k
    · subst h
      have hnil : ph.filterMap
          (fun kv' => if kv'.1 = kv.1 then some (F kv'.1) else none) = [] := by
        rw [List.filterMap_eq_nil_iff]
        intro kv' hm
        have hne : kv'.1 ≠ kv.1 := fun he =>
          hph.1 (he ▸ List.mem_map.mpr ⟨kv', hm, rfl⟩)
        simp [hne]
      simp [List.filterMap_cons, hnil]
    · rw [List.filterMap_cons_none (by simp [h])]
      apply ih hph.2
      rcases List.mem_cons.mp (List.map_cons Prod.fst kv ph ▸ hk) with he | hm
      · exact absurd he.symm h
      · exact hm

theorem validate_impedance_config_eq_first_bad (ph : Params)
    (pre rest : List (String × Params)) (a : String) (p : Params)
    (hpre : ∀ sp ∈ pre, stressorWarnings ph sp.2 = [])
    (hbad : stressorWarnings ph p ≠ []) :
    validate_impedance_config ph (pre ++ (a, p) :: rest)
      = (stressorWarnings ph p, true) := by
  induction pre with
  | nil =>
    have : (stressorWarnings ph p).isEmpty = false :=
      Bool.eq_false_iff.mpr (fun he => hbad (List.isEmpty_iff.mp he))
    simp [validate_impedance_config, this]
  | cons q pre ih =>
    have hq : stressorWarnings ph q.2 = [] := hpre q (List.mem_cons_self q pre)
    simp only [List.cons_append, validate_impedance_config, hq, List.isEmpty_nil,
      if_pos]
    exact ih (fun sp h => hpre sp (List.mem_cons_of_mem q h))

/-- Claim C3: `validate_impedance_config` raises exactly when some stressor
alias's parameter set has an unexpected key, a type-mismatched key, or a
missing template key; and for a parameter set equal to the template minus
exactly one key, it raises and reports exactly that missing key. -/
theorem validate_impedance_config_raises_iff (ph : Params)
    (stressors : List (String × Params)) (a k : String)
    (hph : (ph.map Prod.fst).Nodup)
    (hps : ∀ sp ∈ stressors, (sp.2.map Prod.fst).Nodup)
    (hk : k ∈ ph.map Prod.fst) :
    ((validate_impedance_config ph stressors).2 = true ↔
      ∃ sp ∈ stressors, HasViolation ph sp.2) ∧
    validate_impedance_config ph [(a, removeKey k ph)]
      = ([Warning.missingKey k], true) := by
  have hsubl : ((removeKey k ph).map Prod.fst).Sublist (ph.map Prod.fst) :=
    List.Sublist.map Prod.fst (List.filter_sublist ph)
  have hndsub : ((removeKey k ph).map Prod.fst).Nodup :=
    List.Nodup.sublist hsubl hph
  have hpass1 : (removeKey k ph).filterMap (fun kv =>
      match lookupKey kv.1 ph with
      | none => some (Warning.unexpectedKey kv.1)
      | some tv =>
        if isinstanceB kv.2 (pyType tv) then none
        else some (Warning.typeMismatch kv.1)) = [] := by
    rw [List.filterMap_eq_nil_iff]
    intro kv hm
    have hmem : kv ∈ ph := (List.mem_filter.mp hm).1
    have hlk : lookupKey kv.1 ph = some kv.2 := lookupKey_of_mem hph hmem
    simp [hlk, isinstanceB_refl]
  have hlt : (removeKey k ph).length < ph.length := by
    apply List.length_filter_lt_length_iff_exists.mpr
    obtain ⟨kv, hkv, hfst⟩ := List.mem_map.mp hk
    exact ⟨kv, hkv, by simp [hfst]⟩
  have hlen : (removeKey k ph).length ≠ ph.length := Nat.ne_of_lt hlt
  have hcongr : ∀ kv ∈ ph,
      (if (lookupKey kv.1 (removeKey k ph)).isNone
        then some (Warning.missingKey kv.1) else none)
      = (if kv.1 = k then some (Warning.missingKey kv.1) else none) := by
    intro kv hm
    by_cases he : kv.1 = k
    · have hnone : lookupKey k (removeKey k ph) = none := by
        rw [lookupKey_eq_none_iff]
        intro kv' hm'
        have hne := (List.mem_filter.mp hm').2
        simpa using hne
      simp [he, hnone]
    · have hmem : kv ∈ removeKey k ph := List.mem_filter.mpr ⟨hm, by simp [he]⟩
      have hlk : lookupKey kv.1 (removeKey k ph) = some kv.2 :=
        lookupKey_of_mem hndsub hmem
      simp [hlk, he]
  have hpass2 : ph.filterMap (fun kv =>
      if (lookupKey kv.1 (removeKey k ph)).isNone
        then some (Warning.missingKey kv.1) else none)
      = [Warning.missingKey k] := by
    rw [List.filterMap_congr hcongr,
      filterMap_key_single Warning.missingKey ph k hph hk]
  have hws : stressorWarnings ph (removeKey k ph) = [Warning.missingKey k] := by
    unfold stressorWarnings
    rw [hpass1, if_neg hlen, hpass2]
    rfl
  constructor
  · induction stressors with
    | nil => simp [validate_impedance_config]
    | cons sp rest ih =>
      have hnd : (sp.2.map Prod.fst).Nodup := hps sp (List.mem_cons_self sp rest)
      have ihr := ih (fun q hq => hps q (List.mem_cons_of_mem sp hq))
      by_cases hw : stressorWarnings ph sp.2 = []
      · have hnv : ¬ HasViolation ph sp.2 :=
          (stressorWarnings_eq_nil_iff ph sp.2 hph hnd).mp hw
        simp only [validate_impedance_config, hw, List.isEmpty_nil, if_pos]
        rw [ihr]
        constructor
        · rintro ⟨q, hq, hv⟩
          exact ⟨q, List.mem_cons_of_mem sp hq, hv⟩
        · rintro ⟨q, hq, hv⟩
          rcases List.mem_cons.mp hq with he | hm
          · subst he
            exact absurd hv hnv
          · exact ⟨q, hm, hv⟩
      · have hv : HasViolation ph sp.2 := by
          by_contra hnv
          exact hw ((stressorWarnings_eq_nil_iff ph sp.2 hph hnd).mpr hnv)
        have hemp : (stressorWarnings ph sp.2).isEmpty = false :=
          Bool.eq_false_iff.mpr (fun he => hw (List.isEmpty_iff.mp he))
        simp only [validate_impedance_config, hemp]
        simp only [Bool.false_eq_true, if_false, true_iff]
        exact ⟨sp, List.mem_cons_self sp rest, hv⟩
  · have hbad : stressorWarnings ph (removeKey k ph) ≠ [] := by
      rw [hws]
      exact List.cons_ne_nil _ _
    have h2 := validate_impedance_config_eq_first_bad ph [] [] a
      (removeKey k ph) (fun sp h => absurd h (List.not_mem_nil sp)) hbad
    rw [List.nil_append] at h2
    rw [h2, hws]

/-- The placeholder template `params_placeholder` built by
`ImpedanceWrapper.__init__` with its default arguments: `types = None`,
`decline_type = 'exp_decline'`, and nested decay-parameter mappings. -/
def phDemo : Params :=
  [("types", PyVal.pynone),
   ("decline_type", PyVal.pystr "exp_decline"),
   ("exp_decline", PyVal.pydict [("lambda_decay", 500)]),
   ("prop_decline", PyVal.pydict [("k_value", 500)])]

/-- Witness for C3: removing the required key `types` from the template
makes validation raise and report exactly that key. -/
theorem validate_impedance_config_raises_iff_witness :
    validate_impedance_config phDemo [("roads_primary", removeKey "types" phDemo)]
      = ([Warning.missingKey "types"], true) :=
  (validate_impedance_config_raises_iff phDemo [] "roads_primary" "types"
    (by decide) (fun sp h => absurd h (List.not_mem_nil sp)) (by decide)).2

/-- A registry with one violation in each of two stressor aliases. -/
def regDemo : List (String × Params) :=
  [("roads_primary", removeKey "types" phDemo),
   ("rail", removeKey "decline_type" phDemo)]

/-- A parameter set with an unexpected key (`bogus`) masking a missing key
(`prop_decline`): the parameter count equals the template's, so the
missing-key pass is skipped. -/
def maskedDemo : Params :=
  [("types", PyVal.pynone),
   ("decline_type", PyVal.pystr "exp_decline"),
   ("exp_decline", PyVal.pydict [("lambda_decay", 500)]),
   ("bogus", PyVal.pynone)]

/-- Counterexample to C4 as stated: `regDemo` contains two violations in
two aliases, yet only one warning is emitted (the raise fires at the end of
the first violating alias); and `maskedDemo` contains two violations in a
single alias, yet only the unexpected-key warning is emitted, because the
equal parameter count skips the missing-key pass. -/
theorem validate_impedance_config_not_one_warning_per_violation :
    totalViolations phDemo regDemo = 2 ∧
    (validate_impedance_config phDemo regDemo).1 = [Warning.missingKey "types"] ∧
    (validate_impedance_config phDemo regDemo).1.length
      ≠ totalViolations phDemo regDemo ∧
    violationCount phDemo maskedDemo = 2 ∧
    stressorWarnings phDemo maskedDemo = [Warning.unexpectedKey "bogus"] := by
  refine ⟨by decide, by decide, by decide, by decide, by decide⟩

/-- Claim C4 (amended): `validate_impedance_config` emits warnings only for
the first stressor alias that has any violation and then raises; within
that alias it warns once per unexpected key and once per type mismatch,
and warns per missing key only when the alias's parameter count differs
from the template's.  Violations in later aliases are not reported. -/
theorem validate_impedance_config_first_failure (ph : Params)
    (pre rest : List (String × Params)) (a : String) (p : Params)
    (hpre : ∀ sp ∈ pre, stressorWarnings ph sp.2 = [])
    (hbad : stressorWarnings ph p ≠ []) :
    validate_impedance_config ph (pre ++ (a, p) :: rest)
      = (stressorWarnings ph p, true) ∧
    (∀ kv ∈ p, lookupKey kv.1 ph = none →
      Warning.unexpectedKey kv.1 ∈ stressorWarnings ph p) ∧
    (∀ kv ∈ p, ∀ tv, lookupKey kv.1 ph = some tv →
      isinstanceB kv.2 (pyType tv) = false →
      Warning.typeMismatch kv.1 ∈ stressorWarnings ph p) ∧
    (p.length ≠ ph.length → ∀ kv ∈ ph, lookupKey kv.1 p = none →
      Warning.missingKey kv.1 ∈ stressorWarnings ph p) := by
  refine ⟨validate_impedance_config_eq_first_bad ph pre rest a p hpre hbad,
    ?_, ?_, ?_⟩
  · intro kv hm hn
    exact unexpectedKey_mem_stressorWarnings hm hn
  · intro kv hm tv hs hbad2
    exact typeMismatch_mem_stressorWarnings hm hs hbad2
  · intro hlen kv hm hn
    exact missingKey_mem_stressorWarnings hlen hm hn

/-- Witness for C4 (amended) at a concrete registry: one clean alias, then
a violating one; the run reports the violating alias's warnings and
raises. -/
theorem validate_impedance_config_first_failure_witness :
    validate_impedance_config phDemo
        ([("clean", phDemo)] ++ ("roads_primary", removeKey "types" phDemo) :: [])
      = (stressorWarnings phDemo (removeKey "types" phDemo), true) :=
  (validate_impedance_config_first_failure phDemo [("clean", phDemo)] []
    "roads_primary" (removeKey "types" phDemo)
    (by
      intro sp hsp
      cases List.mem_singleton.mp hsp
      decide)
    (by decide)).1

/-! ## Road buffer widths

Embedding of the SQL `CASE` expression that `buffer_features`
(`src/preprocessing/EnrichRaster/vector_preprocessor.py`, lines 90-140)
passes to `ogr2ogr -dialect SQLite`:

```
CASE WHEN "width" IS NULL OR CAST("width" AS REAL) IS NULL THEN
  CASE WHEN highway IN ('motorway','motorway_link','trunk','trunk_link') THEN 30/2
       WHEN highway IN ('primary','primary_link','secondary','secondary_link') THEN 20/2
       ELSE 10/2 END
ELSE CAST("width" AS REAL)/2 END
```

Under SQLite semantics `CAST(x AS REAL)` is `NULL` only for `NULL` input; a
text value casts to the value of its longest numeric prefix, and to `0.0`
when it has none.  `30/2` is SQLite integer division. -/

/-- A SQLite column value as seen by the buffer expression. -/
inductive SQLVal where
  | null
  | real (q : ℚ)
  | text (s : String)
deriving DecidableEq, Repr

/-- Decimal value of a digit string. -/
def natOfDigits (cs : List Char) : Nat :=
  cs.foldl (fun a c => a * 10 + (c.toNat - 48)) 0

/-- SQLite text-to-REAL conversion: skip leading spaces, read an optional
sign, digits, and an optional fractional part; a text with no numeric
prefix converts to `0.0`.  (Exponent notation is not modelled; no input
considered here uses it.) -/
def sqliteTextToReal (s : String) : ℚ :=
  let cs0 := s.data.dropWhile (fun c => c = ' ')
  let sign : ℚ := if cs0.head? = some '-' then -1 else 1
  let cs1 :=
    if cs0.head? = some '-' || cs0.head? = some '+' then cs0.tail else cs0
  let ip := cs1.takeWhile Char.isDigit
  let after := cs1.dropWhile Char.isDigit
  let fp :=
    if after.head? = some '.' then after.tail.takeWhile Char.isDigit else []
  if ip.isEmpty && fp.isEmpty then 0
  else sign * ((natOfDigits ip : ℚ) + (natOfDigits fp : ℚ) / (10 ^ fp.length))

/-- SQLite `CAST(v AS REAL)`: `NULL` stays `NULL`, a number stays itself,
text converts by numeric-prefix parsing. -/
def sqliteCastReal : SQLVal → SQLVal
  | .null => .null
  | .real q => .real q
  | .text s => .real (sqliteTextToReal s)

/-- SQLite `v IS NULL`. -/
def sqlIsNull : SQLVal → Bool
  | .null => true
  | _ => false

/-- SQLite `v IN (s1, ..., sn)` over string constants; a `NULL` left side
never matches (the `WHEN` branch is then not taken). -/
def sqlInList (v : SQLVal) (l : List String) : Bool :=
  match v with
  | .text s => l.contains s
  | _ => false

/-- Numeric payload of a `REAL` value. -/
def sqlToRat : SQLVal → ℚ
  | .real q => q
  | _ => 0

/-- The buffer half-width computed by the `CASE` expression of
`buffer_features` for one road feature, from its `width` and `highway`
column values. -/
def buffer_features_subquery (width highway : SQLVal) : ℚ :=
  if sqlIsNull width || sqlIsNull (sqliteCastReal width) then
    if sqlInList highway ["motorway", "motorway_link", "trunk", "trunk_link"] then
      ((30 / 2 : Int) : ℚ)
    else if sqlInList highway
        ["primary", "primary_link", "secondary", "secondary_link"] then
      ((20 / 2 : Int) : ℚ)
    else ((10 / 2 : Int) : ℚ)
  else sqlToRat (sqliteCastReal width) / 2

/-- Counterexample to C6 as stated: a road feature whose width is the
non-numeric text `abc` on a `motorway` does not fall back to half-width 15
— SQLite casts `'abc'` to `0.0` (never `NULL`), so the feature buffers by
`0.0 / 2 = 0`. -/
theorem buffer_features_nonnumeric_width_no_fallback :
    buffer_features_subquery (SQLVal.text "abc") (SQLVal.text "motorway") = 0 ∧
    buffer_features_subquery (SQLVal.text "abc") (SQLVal.text "motorway") ≠ 15 := by
  have h : sqliteTextToReal "abc" = 0 := by decide
  constructor
  · simp [buffer_features_subquery, sqliteCastReal, sqlIsNull, sqlToRat, h]
  · simp [buffer_features_subquery, sqliteCastReal, sqlIsNull, sqlToRat, h]

/-- Claim C6 (amended): the highway-class fallback (15 for
motorway/motorway_link/trunk/trunk_link, 10 for
primary/primary_link/secondary/secondary_link, 5 otherwise) applies
exactly when the `width` attribute is SQL `NULL`; any non-null width —
including non-numeric text — buffers by `CAST(width AS REAL)/2`, a numeric
width `w` giving `w/2`. -/
theorem buffer_features_width_fallback (width highway : SQLVal) :
    (width = SQLVal.null →
      (sqlInList highway ["motorway", "motorway_link", "trunk", "trunk_link"]
          = true →
        buffer_features_subquery width highway = 15) ∧
      (sqlInList highway ["motorway", "motorway_link", "trunk", "trunk_link"]
          = false →
        sqlInList highway ["primary", "primary_link", "secondary",
          "secondary_link"] = true →
        buffer_features_subquery width highway = 10) ∧
      (sqlInList highway ["motorway", "motorway_link", "trunk", "trunk_link"]
          = false →
        sqlInList highway ["primary", "primary_link", "secondary",
          "secondary_link"] = false →
        buffer_features_subquery width highway = 5)) ∧
    (∀ q, width = SQLVal.real q →
      buffer_features_subquery width highway = q / 2) ∧
    (∀ s, width = SQLVal.text s →
      buffer_features_subquery width highway = sqliteTextToReal s / 2) := by
  refine ⟨?_, ?_, ?_⟩
  · intro hw
    subst hw
    refine ⟨fun h1 => ?_, fun h1 h2 => ?_, fun h1 h2 => ?_⟩
    · simp [buffer_features_subquery, sqlIsNull, sqliteCastReal, h1]
    · simp [buffer_features_subquery, sqlIsNull, sqliteCastReal, h1, h2]
    · simp [buffer_features_subquery, sqlIsNull, sqliteCastReal, h1, h2]
  · intro q hw
    subst hw
    simp [buffer_features_subquery, sqlIsNull, sqliteCastReal, sqlToRat]
  · intro s hw
    subst hw
    simp [buffer_features_subquery, sqlIsNull, sqliteCastReal, sqlToRat]

/-- Witness for C6 (amended): a null width on a `motorway` buffers to
half-width 15, and a numeric width `12` buffers to `6`. -/
theorem buffer_features_width_fallback_witness :
    buffer_features_subquery SQLVal.null (SQLVal.text "motorway") = 15 ∧
    buffer_features_subquery (SQLVal.real 12) (SQLVal.text "motorway") = 12 / 2 :=
  ⟨((buffer_features_width_fallback SQLVal.null (SQLVal.text "motorway")).1
      rfl).1 (by decide),
   (buffer_features_width_fallback (SQLVal.real 12)
      (SQLVal.text "motorway")).2.1 12 rfl⟩

/-! ## Geometry validity repair

Embedding of `fix_geometries_in_gpkg`
(`src/preprocessing/OSM/osm_geojson_to_gpkg.py`, lines 82-136).  Geometry
validity (`IsValid`) and repair (`MakeValid`) are OGR primitives, passed in
as functions over an abstract geometry type.  The source initializes the
three per-layer counters inside the layer loop, but the block that reports
them (`if feature_to_fix_count == 0: ... else: ...`) is indented at the
level of the layer loop itself, i.e. it runs once after the loop, so only
the last layer's name and counters are ever reported. -/

/-- The three per-layer counters of `fix_geometries_in_gpkg`. -/
structure LayerCounts where
  toFix : Nat
  fixed : Nat
  unfixable : Nat
deriving DecidableEq, Repr

/-- The per-feature pass over one layer: a valid geometry is left
untouched; an invalid one is counted as needing a fix, `MakeValid` is
attempted, and the geometry is replaced only when the repaired geometry is
valid, otherwise the feature stays as it was and counts as unfixable.
Features are `(FID, geometry)` pairs. -/
def fixFeatures {G : Type} (isValid : G → Bool) (makeValid : G → G) :
    List (Nat × G) → List (Nat × G) × LayerCounts
  | [] => ([], ⟨0, 0, 0⟩)
  | fg :: rest =>
    let r := fixFeatures isValid makeValid rest
    if isValid fg.2 then (fg :: r.1, r.2)
    else
      let g2 := makeValid fg.2
      if isValid g2 then
        ((fg.1, g2) :: r.1, ⟨r.2.toFix + 1, r.2.fixed + 1, r.2.unfixable⟩)
      else (fg :: r.1, ⟨r.2.toFix + 1, r.2.fixed, r.2.unfixable + 1⟩)

/-- `fix_geometries_in_gpkg`: scan every layer (name/feature-list pairs),
repairing features in place; the report — the source's misindented print
block — is produced once, from the counters and layer name left over from
the final loop iteration (`none` when the dataset has no layers, where the
source would hit an unbound local variable). -/
def fix_geometries_in_gpkg {G : Type} (isValid : G → Bool) (makeValid : G → G)
    (layers : List (String × List (Nat × G))) :
    List (String × List (Nat × G)) × Option (String × LayerCounts) :=
  layers.foldl
    (fun acc l =>
      let r := fixFeatures isValid makeValid l.2
      (acc.1 ++ [(l.1, r.1)], some (l.1, r.2)))
    ([], none)

/-- Demo validity oracle on `ℕ` geometries: `0` is the only valid
geometry. -/
def demoIsValid (g : Nat) : Bool := g == 0

/-- Demo repair: decrement, so geometry `1` is fixable and `2` is not. -/
def demoMakeValid (g : Nat) : Nat := g - 1

/-- A two-layer dataset: layer `roads` has one invalid-but-fixable
feature, layer `rail` is entirely valid. -/
def demoLayers : List (String × List (Nat × Nat)) :=
  [("roads", [(1, 1)]), ("rail", [(7, 0)])]

/-- Claim C7 at the failing input: scanning `demoLayers` fixes the invalid
feature of layer `roads` (whose per-layer counters are `{1, 1, 0}`), but
the single report produced is for layer `rail` with all-zero counters —
layer `roads`'s counts are never reported, because the reporting block sits
outside the layer loop. -/
theorem fix_geometries_report_last_layer_only :
    fixFeatures demoIsValid demoMakeValid [(1, 1)] = ([(1, 0)], ⟨1, 1, 0⟩) ∧
    fix_geometries_in_gpkg demoIsValid demoMakeValid demoLayers
      = ([("roads", [(1, 0)]), ("rail", [(7, 0)])], some ("rail", ⟨0, 0, 0⟩)) := by
  refine ⟨by decide, by decide⟩

/-! ## OSM GeoJSON filtering

Embedding of the filtering core of `fix_invalid_geometries`
(`src/preprocessing/OSM/osm_preprocessor.py`, lines 292-374): per theme,
keep the features of the right geometry types (with a ground-level check
for the line themes), then lower-case all property keys via a Python dict
comprehension (last writer wins on key collisions). -/

/-- A JSON property value. -/
inductive JVal where
  | null
  | num (q : ℚ)
  | str (s : String)
  | bool (b : Bool)
deriving DecidableEq, Repr

/-- A GeoJSON geometry: its `type` tag and its (opaque, untouched)
coordinate payload. -/
structure Geometry where
  gtype : String
  coords : String
deriving DecidableEq, Repr

/-- A GeoJSON feature: geometry plus properties dictionary. -/
structure Feature where
  geom : Geometry
  props : List (String × JVal)
deriving DecidableEq, Repr

/-- Python `feature['properties'].get('level') in (None, 0)`: a missing or
null level passes, a numeric level passes exactly when it equals `0`
(Python `==` also counts `False` as `0`), any other value fails. -/
def levelOk (props : List (String × JVal)) : Bool :=
  match lookupKey "level" props with
  | none => true
  | some JVal.null => true
  | some (JVal.num q) => q == 0
  | some (JVal.bool b) => !b
  | some (JVal.str _) => false

/-- Python dict insertion with overwrite: an existing key keeps its
position and gets the new value, a new key is appended. -/
def dictInsert {α : Type} (m : List (String × α)) (k : String) (v : α) :
    List (String × α) :=
  if m.any (fun kv => decide (kv.1 = k)) then
    m.map (fun kv => if kv.1 = k then (k, v) else kv)
  else m ++ [(k, v)]

/-- The dict comprehension `{property_key.lower(): property_value ...}`
over one feature's properties. -/
def lowerProps (props : List (String × JVal)) : List (String × JVal) :=
  props.foldl (fun m kv => dictInsert m kv.1.toLower kv.2) []

/-- One retained feature after key lower-casing: same geometry, lower-cased
property keys. -/
def lowerFeature (f : Feature) : Feature := ⟨f.geom, lowerProps f.props⟩

/-- The per-theme filtering step of `fix_invalid_geometries`: the
`roads`/`railways`/`waterways` themes keep LineString/MultiLineString
features at ground level, `waterbodies` keeps Polygon/MultiPolygon
features, any other theme keeps everything; every retained feature then
gets its property keys lower-cased. -/
def fix_invalid_geometries (query_name : String) (features : List Feature) :
    List Feature :=
  let filtered :=
    if query_name = "roads" ∨ query_name = "railways" ∨ query_name = "waterways"
    then
      features.filter (fun f =>
        decide (f.geom.gtype = "LineString" ∨ f.geom.gtype = "MultiLineString")
          && levelOk f.props)
    else if query_name = "waterbodies" then
      features.filter (fun f =>
        decide (f.geom.gtype = "Polygon" ∨ f.geom.gtype = "MultiPolygon"))
    else features
  filtered.map lowerFeature

theorem mem_dictInsert {α : Type} {m : List (String × α)} {k : String} {v : α}
    {kv : String × α} (h : kv ∈ dictInsert m k v) : kv ∈ m ∨ kv = (k, v) := by
  unfold dictInsert at h
  by_cases ha : m.any (fun kv => decide (kv.1 = k)) = true
  · rw [if_pos ha] at h
    obtain ⟨kv0, hkv0, he⟩ := List.mem_map.mp h
    by_cases hk : kv0.1 = k
    · rw [if_pos hk] at he
      exact Or.inr he.symm
    · rw [if_neg hk] at he
      exact Or.inl (he ▸ hkv0)
  · rw [if_neg ha] at h
    rcases List.mem_append.mp h with hm | hm
    · exact Or.inl hm
    · exact Or.inr (List.mem_singleton.mp hm)

theorem of_mem_lowerProps {ps : List (String × JVal)} :
    ∀ (m : List (String × JVal)) (kv : String × JVal),
      kv ∈ ps.foldl (fun m kv => dictInsert m kv.1.toLower kv.2) m →
      kv ∈ m ∨ ∃ kv0 ∈ ps, kv = (kv0.1.toLower, kv0.2) := by
  induction ps with
  | nil => exact fun m kv h => Or.inl h
  | cons p ps ih =>
    intro m kv h
    rw [List.foldl_cons] at h
    rcases ih (dictInsert m p.1.toLower p.2) kv h with hm | ⟨kv0, hkv0, he⟩
    · rcases mem_dictInsert hm with hm2 | he2
      · exact Or.inl hm2
      · exact Or.inr ⟨p, List.mem_cons_self p ps, he2⟩
    · exact Or.inr ⟨kv0, List.mem_cons_of_mem p hkv0, he⟩

theorem foldl_dictInsert_eq_append (ps : List (String × JVal)) :
    ∀ m : List (String × JVal),
      (∀ kv ∈ ps, ∀ kv' ∈ m, kv.1.toLower ≠ kv'.1) →
      (ps.map (fun kv => kv.1.toLower)).Nodup →
      ps.foldl (fun m kv => dictInsert m kv.1.toLower kv.2) m
        = m ++ ps.map (fun kv => (kv.1.toLower, kv.2)) := by
  induction ps with
  | nil => intro m _ _; simp
  | cons p ps ih =>
    intro m hdisj hnd
    simp only [List.map_cons, List.nodup_cons] at hnd
    rw [List.foldl_cons]
    have hany : m.any (fun kv => decide (kv.1 = p.1.toLower)) = false := by
      rw [List.any_eq_false]
      intro kv' hm'
      simpa using (hdisj p (List.mem_cons_self p ps) kv' hm').symm
    have hins : dictInsert m p.1.toLower p.2 = m ++ [(p.1.toLower, p.2)] := by
      unfold dictInsert
      rw [if_neg (by rw [hany]; exact Bool.false_ne_true)]
    rw [hins, ih (m ++ [(p.1.toLower, p.2)]) ?_ hnd.2]
    · simp
    · intro kv hkv kv' hkv'
      rcases List.mem_append.mp hkv' with hm | hm
      · exact hdisj kv (List.mem_cons_of_mem p hkv) kv' hm
      · rw [List.mem_singleton.mp hm]
        intro he
        exact hnd.1 (List.mem_map.mpr ⟨kv, hkv, he⟩)

/-- Claim C8: the line themes keep exactly the LineString/MultiLineString
features whose `level` is null (or absent) or `0`; `waterbodies` keeps
exactly the Polygon/MultiPolygon features; every retained feature keeps its
geometry, each of its property entries comes from an original entry with
the key lower-cased and the value unchanged, and — when no two keys collide
after lower-casing, as with distinct dictionary keys in practice — the
properties are exactly the original entries with lower-cased keys. -/
theorem fix_invalid_geometries_filter (features : List Feature)
    (theme : String) (f0 : Feature)
    (hline : theme = "roads" ∨ theme = "railways" ∨ theme = "waterways")
    (hnd : (f0.props.map (fun kv => kv.1.toLower)).Nodup) :
    (∀ f, f ∈ fix_invalid_geometries theme features ↔
      ∃ g ∈ features,
        ((g.geom.gtype = "LineString" ∨ g.geom.gtype = "MultiLineString") ∧
          levelOk g.props = true) ∧ f = lowerFeature g) ∧
    (∀ f, f ∈ fix_invalid_geometries "waterbodies" features ↔
      ∃ g ∈ features,
        (g.geom.gtype = "Polygon" ∨ g.geom.gtype = "MultiPolygon") ∧
        f = lowerFeature g) ∧
    (lowerFeature f0).geom = f0.geom ∧
    (∀ k v, (k, v) ∈ (lowerFeature f0).props →
      ∃ k0, (k0, v) ∈ f0.props ∧ k = k0.toLower) ∧
    (lowerFeature f0).props = f0.props.map (fun kv => (kv.1.toLower, kv.2)) := by
  refine ⟨?_, ?_, rfl, ?_, ?_⟩
  · intro f
    unfold fix_invalid_geometries
    rw [if_pos hline]
    simp only [List.mem_map, List.mem_filter, Bool.and_eq_true, decide_eq_true_eq]
    constructor
    · rintro ⟨g, ⟨hg, hp, hl⟩, he⟩
      exact ⟨g, hg, ⟨hp, hl⟩, he.symm⟩
    · rintro ⟨g, hg, ⟨hp, hl⟩, he⟩
      exact ⟨g, ⟨hg, hp, hl⟩, he.symm⟩
  · intro f
    unfold fix_invalid_geometries
    rw [if_neg (by simp), if_pos rfl]
    simp only [List.mem_map, List.mem_filter, decide_eq_true_eq]
    constructor
    · rintro ⟨g, ⟨hg, hp⟩, he⟩
      exact ⟨g, hg, hp, he.symm⟩
    · rintro ⟨g, hg, hp, he⟩
      exact ⟨g, ⟨hg, hp⟩, he.symm⟩
  · intro k v h
    rcases of_mem_lowerProps [] (k, v) h with hm | ⟨kv0, hkv0, he⟩
    · simp at hm
    · exact ⟨kv0.1, by
        have : (k, v) = (kv0.1.toLower, kv0.2) := he
        rw [Prod.mk.injEq] at this
        exact ⟨this.2 ▸ hkv0, this.1⟩⟩
  · show lowerProps f0.props = _
    unfold lowerProps
    rw [foldl_dictInsert_eq_append f0.props []
      (fun kv _ kv' h => absurd h (List.not_mem_nil kv')) hnd]
    rw [List.nil_append]

/-- A concrete ground-level road feature with an upper-case property
key. -/
def featDemo : Feature := ⟨⟨"LineString", "coords1"⟩, [("NAME", JVal.str "A428")]⟩

/-- Witness for C8: the demo feature's properties come out exactly
lower-cased with the value untouched. -/
theorem fix_invalid_geometries_filter_witness :
    (lowerFeature featDemo).props
      = featDemo.props.map (fun kv => (kv.1.toLower, kv.2)) :=
  (fix_invalid_geometries_filter [] "roads" featDemo (Or.inl rfl)
    (by decide)).2.2.2.2

end Pilot2
